import Mathlib

/-!
Shallow embedding of `src/cloudsmith_metrics_2.py`, a script that fetches
per-entitlement download counts from a registry API, buckets them by calendar
month, and writes a CSV report.

Modelling conventions:
* Python `datetime` values are modelled by their calendar date (proleptic
  Gregorian, as the `datetime` library implements).  The script normalizes
  times of day (`replace(hour=0, ...)`, `replace(hour=23, minute=59, second=59)`)
  but the month keys and the `%Y-%m-%d` start/finish strings it emits depend
  only on the date part, so the model carries dates only.
* `timedelta(days=k)` subtraction is modelled as `k` iterations of the
  previous-calendar-day function.
* HTTP is abstracted by an oracle `String → String → String → Response`
  mapping `(token, start, finish)` to the response; URL construction,
  headers and the namespace/repo plumbing are incidental and not modelled.
  `response.json()` bodies are modelled by an explicit `Json` type.
* `logging` calls are modelled by returning a list of `LogEntry` values.
* Python exceptions (`requests.HTTPError` from `raise_for_status`,
  `AttributeError` from calling `.get` on a non-dict) are modelled with
  `Except PyErr`.
* Python `dict` / `defaultdict` state is modelled by association lists with
  insertion-order semantics (`setEntry` updates in place, appends new keys).
-/

namespace CSM

/-- JSON values, modelling Python objects produced by `response.json()`. -/
inductive Json where
  | null : Json
  | bool : Bool → Json
  | num : Int → Json
  | str : String → Json
  | arr : List Json → Json
  | obj : List (String × Json) → Json

/-- Association-list lookup, modelling Python `dict` key lookup. -/
def alookup {α : Type} : List (String × α) → String → Option α
  | [], _ => none
  | (k', v) :: rest, k => if k' = k then some v else alookup rest k

/-- Association-list assignment `d[k] = v`: an existing key is updated in
place, a new key is appended, as Python dicts do. -/
def setEntry {α : Type} : List (String × α) → String → α → List (String × α)
  | [], k, v => [(k, v)]
  | (k', v') :: rest, k, v =>
    if k' = k then (k, v) :: rest else (k', v') :: setEntry rest k v

/-- A calendar date, modelling the date part of a Python `datetime`. -/
structure Date where
  year : Int
  month : Nat
  day : Nat
deriving DecidableEq, Repr

/-- Gregorian leap-year rule, as implemented by Python `datetime`. -/
def isLeap (y : Int) : Bool :=
  y % 4 == 0 && (y % 100 != 0 || y % 400 == 0)

/-- Number of days in a calendar month, as implemented by Python `datetime`. -/
def daysInMonth (y : Int) (m : Nat) : Nat :=
  if m = 2 then (if isLeap y then 29 else 28)
  else if m = 4 ∨ m = 6 ∨ m = 9 ∨ m = 11 then 30
  else 31

/-- The date is a valid proleptic Gregorian calendar date. -/
def Date.Valid (d : Date) : Prop :=
  1 ≤ d.month ∧ d.month ≤ 12 ∧ 1 ≤ d.day ∧ d.day ≤ daysInMonth d.year d.month

instance (d : Date) : Decidable d.Valid := by
  unfold Date.Valid; exact inferInstance

/-- The previous calendar day: `datetime - timedelta(days=1)` on the date part. -/
def predDay (d : Date) : Date :=
  if 2 ≤ d.day then ⟨d.year, d.month, d.day - 1⟩
  else if 2 ≤ d.month then ⟨d.year, d.month - 1, daysInMonth d.year (d.month - 1)⟩
  else ⟨d.year - 1, 12, 31⟩

/-- `datetime - timedelta(days=n)` on the date part. -/
def subDays (n : Nat) (d : Date) : Date := predDay^[n] d

/-- `month_date.replace(day=1)` (line 83; the time-of-day normalization does
not affect the date part). -/
def firstOfMonth (d : Date) : Date := ⟨d.year, d.month, 1⟩

/-- Lines 85-88: the last day of the month of first-day `fd`, computed as the
first day of the following month minus one day, with an explicit
December-to-January year rollover branch. -/
def lastOfMonthSrc (fd : Date) : Date :=
  if fd.month = 12 then predDay ⟨fd.year + 1, 1, fd.day⟩
  else predDay ⟨fd.year, fd.month + 1, fd.day⟩

/-- Zero-padded two-digit rendering, as `strftime` produces for `%m` / `%d`. -/
def pad2 (n : Nat) : String :=
  if n < 10 then "0" ++ toString n else toString n

/-- Zero-padded four-digit rendering, as `strftime` produces for `%Y`
(Python datetime years are always ≥ 1, so no sign handling is needed). -/
def pad4 (n : Nat) : String :=
  if n < 10 then "000" ++ toString n
  else if n < 100 then "00" ++ toString n
  else if n < 1000 then "0" ++ toString n
  else toString n

/-- `strftime` of a year value. -/
def yearStr (y : Int) : String := pad4 y.toNat

/-- `first_day.strftime` with format year dash month (line 91). -/
def monthKeyStr (y : Int) (m : Nat) : String := yearStr y ++ "-" ++ pad2 m

/-- `strftime` with format year dash month dash day (lines 94-95). -/
def dateStr (d : Date) : String :=
  yearStr d.year ++ "-" ++ pad2 d.month ++ "-" ++ pad2 d.day

/-- One entry of `months_list` (lines 92-96). -/
structure MonthBucket where
  key : String
  start : Date
  finish : Date
deriving DecidableEq, Repr

/-- Lines 81-96 for a single loop index: the month bucket derived from
`end_date - timedelta(days=i*30)`. -/
def mkBucket (d : Date) : MonthBucket :=
  let fd := firstOfMonth d
  let ld := lastOfMonthSrc fd
  ⟨monthKeyStr fd.year fd.month, fd, ld⟩

/-- Lines 79-98: the `months_list` computed in `get_layer_pulls`, reversed to
chronological order.  `months` is an `Int` and `List.range months.toNat`
models Python `range(months)`, which is empty for non-positive input. -/
def monthsList (now : Date) (months : Int) : List MonthBucket :=
  ((List.range months.toNat).map (fun i => mkBucket (subDays (30 * i) now))).reverse

/-- One element of the entitlement list returned by the API.  The script
reads `entitlement["slug_perm"]` and `entitlement.get("name", token)`. -/
structure Entitlement where
  slug_perm : String
  name : Option String
deriving DecidableEq, Repr

/-- An HTTP response: status code and parsed JSON body. -/
structure Response where
  status : Nat
  body : Json

/-- Python exceptions the script can hit in the modelled region. -/
inductive PyErr where
  | httpError : Nat → PyErr
  | attributeError : PyErr
deriving DecidableEq, Repr

/-- Python `logging` levels used by the script. -/
inductive LogLevel where
  | debug | info | warning | error
deriving DecidableEq, Repr

/-- One emitted log record. -/
structure LogEntry where
  level : LogLevel
  msg : String
deriving DecidableEq, Repr

/-- `response.raise_for_status()`: raises `HTTPError` exactly for client and
server error statuses 400-599; any other status (including ≥ 600) passes. -/
def raise_for_status (resp : Response) : Except PyErr Unit :=
  if 400 ≤ resp.status ∧ resp.status < 600 then .error (.httpError resp.status)
  else .ok ()

/-- Python `value.get(key, default)`: dictionary lookup with default, raising
`AttributeError` when the receiver is not a dict. -/
def jget (j : Json) (k : String) (dflt : Json) : Except PyErr Json :=
  match j with
  | .obj fs => .ok ((alookup fs k).getD dflt)
  | _ => .error .attributeError

/-- Line 56: the nested defaulting extraction of the total download count,
with `AttributeError` propagating from any step. -/
def extractTotal (body : Json) : Except PyErr Json :=
  match jget body "tokens" (.obj []) with
  | .error e => .error e
  | .ok t =>
    match jget t "downloads" (.obj []) with
    | .error e => .error e
    | .ok dl =>
      match jget dl "total" (.obj []) with
      | .error e => .error e
      | .ok tot => jget tot "value" (.num 0)

/-- Lines 33-58, `fetch_usage_metrics`: 404 means zero usage (warning log),
other statuses ≥ 400 raise `HTTPError`, otherwise the count is extracted from
the JSON body with defaulting.  Returns the emitted log records together with
the result. -/
def fetch_usage_metrics (token startS finishS : String) (resp : Response) :
    List LogEntry × Except PyErr Json :=
  let dbg : LogEntry :=
    ⟨.debug, "Fetching usage metrics for " ++ token ++ " from " ++ startS ++
      " to " ++ finishS⟩
  if resp.status = 404 then
    ([dbg, ⟨.warning, "No usage metrics found for entitlement token: " ++ token⟩],
      .ok (.num 0))
  else
    match raise_for_status resp with
    | .error e => ([dbg], .error e)
    | .ok _ =>
      match extractTotal resp.body with
      | .error e => ([dbg], .error e)
      | .ok v =>
        ([dbg, ⟨.debug, "Total downloads for " ++ token ++ " from " ++ startS ++
          " to " ++ finishS⟩], .ok v)

/-- The `pulls_data` structure: `defaultdict(lambda: defaultdict(int))`
holding token → month key → stored JSON count. -/
abbrev Matrix := List (String × List (String × Json))

/-- `pulls_data[token][month_key] = v` on the defaultdict of dicts. -/
def setCell : Matrix → String → String → Json → Matrix
  | [], t, k, v => [(t, [(k, v)])]
  | (t', row) :: rest, t, k, v =>
    if t' = t then (t, setEntry row k v) :: rest
    else (t', row) :: setCell rest t k v

/-- Read access `pulls_data[token][month_key]`, `none` when absent. -/
def getCell (m : Matrix) (t k : String) : Option Json :=
  (alookup m t).bind (fun row => alookup row k)

/-- Lines 111-114: the call of `fetch_usage_metrics` for one token and one
month bucket, with the bucket's start/finish dates rendered as the request
range and the response supplied by the oracle. -/
def fetchFor (oracle : String → String → String → Response) (t : String)
    (b : MonthBucket) : List LogEntry × Except PyErr Json :=
  fetch_usage_metrics t (dateStr b.start) (dateStr b.finish)
    (oracle t (dateStr b.start) (dateStr b.finish))

/-- Lines 106-117: the inner loop of `get_layer_pulls` over `months_list` for
one entitlement token, storing each fetched count.  An exception from
`fetch_usage_metrics` propagates, aborting the fold. -/
def fetchMonths (oracle : String → String → String → Response) (t : String) :
    List MonthBucket → Matrix → List LogEntry × Except PyErr Matrix
  | [], m => ([], .ok m)
  | b :: rest, m =>
    let dbg : LogEntry := ⟨.debug, "Fetching metrics for " ++ b.key⟩
    let fr := fetchFor oracle t b
    match fr.2 with
    | .error e => (dbg :: fr.1, .error e)
    | .ok v =>
      let res := fetchMonths oracle t rest (setCell m t b.key v)
      (dbg :: fr.1 ++ [⟨.debug, "Downloads for " ++ b.key⟩] ++ res.1, res.2)

/-- Lines 101-117: the outer loop of `get_layer_pulls` over the entitlement
list. -/
def processEntitlements (oracle : String → String → String → Response)
    (buckets : List MonthBucket) :
    List Entitlement → Matrix → List LogEntry × Except PyErr Matrix
  | [], m => ([], .ok m)
  | e :: rest, m =>
    let t := e.slug_perm
    let ilog : LogEntry :=
      ⟨.info, "Processing entitlement: " ++ e.name.getD t ++ " (" ++ t ++ ")"⟩
    let res := fetchMonths oracle t buckets m
    match res.2 with
    | .error err => (ilog :: res.1, .error err)
    | .ok m1 =>
      let res2 := processEntitlements oracle buckets rest m1
      (ilog :: res.1 ++ res2.1, res2.2)

/-- Lines 60-120, `get_layer_pulls`, with the entitlement list (the decoded
result of `fetch_entitlement_keys`) and the usage-metrics HTTP layer passed
as parameters.  An empty entitlement list returns the empty matrix before any
bucket is computed. -/
def get_layer_pulls (ents : List Entitlement)
    (oracle : String → String → String → Response)
    (now : Date) (months : Int) : List LogEntry × Except PyErr Matrix :=
  let hdr : List LogEntry := [⟨.info, "Fetching entitlement keys"⟩]
  if ents.isEmpty then
    (hdr ++ [⟨.warning, "No entitlement keys found."⟩], .ok [])
  else
    let buckets := monthsList now months
    let res := processEntitlements oracle buckets ents []
    (hdr ++ [⟨.info, "Found " ++ toString ents.length ++ " entitlement keys."⟩]
      ++ res.1 ++
      (match res.2 with
       | .ok _ => [⟨.info, "Completed processing all entitlements."⟩]
       | .error _ => []), res.2)

/-- Lines 128-136: the month-key list recomputed inside `write_csv` (no
time-of-day normalization, no start/finish computation). -/
def writeCsvMonthKeys (now : Date) (months : Int) : List String :=
  ((List.range months.toNat).map (fun i =>
    let fd := firstOfMonth (subDays (30 * i) now)
    monthKeyStr fd.year fd.month)).reverse

/-- Lines 122-145, `write_csv`: the rows written to the CSV file, each cell a
Python value handed to `csv.writer` (header cells and tokens are strings,
counts are the stored JSON values, absent cells default to integer 0). -/
def write_csv (pulls_data : Matrix) (months : Int) (now : Date) :
    List (List Json) :=
  let keys := writeCsvMonthKeys now months
  (Json.str "Entitlement Token" :: keys.map Json.str) ::
    pulls_data.map (fun p =>
      Json.str p.1 :: keys.map (fun k => (alookup p.2 k).getD (Json.num 0)))

/-- Outcome of one process invocation: logs, the CSV rows written (`none`
when the run aborted before writing), and the exit code. -/
structure RunResult where
  logs : List LogEntry
  output : Option (List (List Json))
  exitCode : Nat

/-- Lines 149-177, the `__main__` block after the credential check: run
`get_layer_pulls` then `write_csv`; any exception is caught, logged at error
level, and the process exits with status 1 without writing the CSV. -/
def mainRun (ents : List Entitlement)
    (oracle : String → String → String → Response)
    (now : Date) (months : Int) : RunResult :=
  let res := get_layer_pulls ents oracle now months
  match res.2 with
  | .ok pd =>
    ⟨res.1 ++ [⟨.info, "Writing data to CSV file"⟩,
      ⟨.info, "CSV file written successfully"⟩,
      ⟨.info, "Successfully generated entitlement_downloads.csv"⟩],
      some (write_csv pd months now), 0⟩
  | .error e =>
    (⟨res.1 ++ [⟨.error,
      match e with
      | .httpError s => "HTTP Error: " ++ toString s
      | .attributeError => "An error occurred: AttributeError"⟩], none, 1⟩)

/-- The well-shaped metrics response body carrying download count `n`
(the shape documented at line 55). -/
def goodBody (n : Int) : Json :=
  .obj [("tokens", .obj [("downloads", .obj [("total", .obj [("value", .num n)])])])]

/-- An API modelled as a function from (token, month-range) to counts, as in
the determinism requirement: every usage query succeeds with status 200 and
the documented response shape. -/
def oracleOf (cnt : String → String → String → Int) :
    String → String → String → Response :=
  fun t s f => ⟨200, goodBody (cnt t s f)⟩

/-- Order on dates at year-month granularity. -/
def ymLe (a b : Date) : Prop :=
  a.year < b.year ∨ (a.year = b.year ∧ a.month ≤ b.month)

/-- Chronological (lexicographic) order on dates. -/
def dateLe (a b : Date) : Prop :=
  a.year < b.year ∨ (a.year = b.year ∧
    (a.month < b.month ∨ (a.month = b.month ∧ a.day ≤ b.day)))

instance (a b : Date) : Decidable (dateLe a b) := by
  unfold dateLe; exact inferInstance

/-- The value the per-token loop leaves at key `k`: the value of the last
bucket in iteration order whose key is `k`, if any. -/
def cellSpecGen (val : MonthBucket → Json) (buckets : List MonthBucket)
    (k : String) : Option Json :=
  (buckets.reverse.find? (fun b => b.key == k)).map val

/-- Every value of the row is an integer count. -/
def rowAllNum (row : List (String × Json)) : Prop :=
  ∀ q ∈ row, ∃ n : Int, q.2 = Json.num n

/-- Every cell stored in the matrix is an integer count. -/
def matrixAllNum (m : Matrix) : Prop := ∀ p ∈ m, rowAllNum p.2

/-- Order on (year, month) pairs. -/
def ymPairLe (a b : Int × Nat) : Prop :=
  a.1 < b.1 ∨ (a.1 = b.1 ∧ a.2 ≤ b.2)

/-- The (year, month) pairs underlying the CSV header keys. -/
def csvYmList (now : Date) (months : Int) : List (Int × Nat) :=
  ((List.range months.toNat).map (fun i =>
    ((subDays (30 * i) now).year, (subDays (30 * i) now).month))).reverse

/-- Every month has at least one day. -/
theorem daysInMonth_pos (y : Int) (m : Nat) : 1 ≤ daysInMonth y m := by
  unfold daysInMonth
  split
  · split <;> omega
  · split <;> omega

/-- December always has 31 days. -/
theorem daysInMonth_twelve (y : Int) : daysInMonth y 12 = 31 := by
  unfold daysInMonth; norm_num

/-- Core calendar fact: applied to the first day of a month, the
first-of-next-month-minus-one-day computation yields the last day of that
month, with the December branch rolling the year over. -/
theorem lastOfMonthSrc_firstDay (y : Int) (m : Nat) (h1 : 1 ≤ m) (h12 : m ≤ 12) :
    lastOfMonthSrc ⟨y, m, 1⟩ = ⟨y, m, daysInMonth y m⟩ := by
  by_cases hm : m = 12
  · subst hm
    simp only [lastOfMonthSrc, predDay, daysInMonth]
    norm_num
  · have h2 : 2 ≤ m + 1 := by omega
    simp only [lastOfMonthSrc, predDay, hm, if_false]
    rw [if_neg (by omega), if_pos h2, Nat.add_sub_cancel]

/-- `predDay` maps valid dates to valid dates. -/
theorem predDay_valid {d : Date} (h : d.Valid) : (predDay d).Valid := by
  obtain ⟨h1, h2, h3, h4⟩ := h
  unfold predDay
  by_cases hd : 2 ≤ d.day
  · rw [if_pos hd]
    unfold Date.Valid
    dsimp only
    omega
  · rw [if_neg hd]
    by_cases hm : 2 ≤ d.month
    · rw [if_pos hm]
      unfold Date.Valid
      dsimp only
      have := daysInMonth_pos d.year (d.month - 1)
      omega
    · rw [if_neg hm]
      unfold Date.Valid
      dsimp only
      rw [daysInMonth_twelve]
      omega

/-- `subDays` maps valid dates to valid dates. -/
theorem subDays_valid (n : Nat) {d : Date} (h : d.Valid) : (subDays n d).Valid := by
  induction n with
  | zero => exact h
  | succ k ih =>
    rw [subDays, Function.iterate_succ_apply']
    exact predDay_valid ih

theorem ymLe_refl (a : Date) : ymLe a a := Or.inr ⟨rfl, le_refl _⟩

theorem ymLe_trans {a b c : Date} (h1 : ymLe a b) (h2 : ymLe b c) : ymLe a c := by
  unfold ymLe at *
  rcases h1 with h1 | ⟨h1, h1m⟩ <;> rcases h2 with h2 | ⟨h2, h2m⟩
  · exact Or.inl (by omega)
  · exact Or.inl (by omega)
  · exact Or.inl (by omega)
  · exact Or.inr ⟨by omega, by omega⟩

/-- Going to the previous day never advances the year-month. -/
theorem ymLe_predDay (d : Date) : ymLe (predDay d) d := by
  unfold predDay ymLe
  by_cases hd : 2 ≤ d.day
  · rw [if_pos hd]; dsimp only; omega
  · rw [if_neg hd]
    by_cases hm : 2 ≤ d.month
    · rw [if_pos hm]; dsimp only; omega
    · rw [if_neg hm]; dsimp only; omega

/-- Going back any number of days never advances the year-month. -/
theorem ymLe_subDays (n : Nat) (d : Date) : ymLe (subDays n d) d := by
  induction n with
  | zero => exact ymLe_refl d
  | succ k ih =>
    rw [subDays, Function.iterate_succ_apply']
    exact ymLe_trans (ymLe_predDay _) ih

/-- Monotonicity of day decrements in the step count. -/
theorem ymLe_subDays_mono {i j : Nat} (d : Date) (h : i ≤ j) :
    ymLe (subDays j d) (subDays i d) := by
  have hj : j = (j - i) + i := by omega
  rw [hj, subDays, Function.iterate_add_apply]
  exact ymLe_subDays _ _

/-- Year-month order transfers to chronological order on first days. -/
theorem dateLe_firstOfMonth {a b : Date} (h : ymLe a b) :
    dateLe (firstOfMonth a) (firstOfMonth b) := by
  unfold firstOfMonth dateLe
  dsimp only
  rcases h with h | ⟨h, hm⟩
  · exact Or.inl h
  · exact Or.inr ⟨h, by omega⟩

theorem mkBucket_start (d : Date) : (mkBucket d).start = firstOfMonth d := rfl

theorem mkBucket_finish (d : Date) :
    (mkBucket d).finish = lastOfMonthSrc (firstOfMonth d) := rfl

theorem mkBucket_key (d : Date) :
    (mkBucket d).key = monthKeyStr d.year d.month := rfl

/-- The bucket list has exactly `months.toNat` entries. -/
theorem monthsList_length (now : Date) (months : Int) :
    (monthsList now months).length = months.toNat := by
  unfold monthsList
  rw [List.length_reverse, List.length_map, List.length_range]

/-- Membership characterization of the bucket list. -/
theorem mem_monthsList {now : Date} {months : Int} {b : MonthBucket}
    (h : b ∈ monthsList now months) :
    ∃ i, i < months.toNat ∧ b = mkBucket (subDays (30 * i) now) := by
  unfold monthsList at h
  rw [List.mem_reverse, List.mem_map] at h
  obtain ⟨i, hi, rfl⟩ := h
  exact ⟨i, List.mem_range.mp hi, rfl⟩

/-- The buckets are chronologically ascending (non-strictly) by start date. -/
theorem monthsList_sorted (now : Date) (months : Int) :
    List.Sorted dateLe ((monthsList now months).map (·.start)) := by
  unfold monthsList List.Sorted
  rw [List.map_reverse, List.map_map, List.pairwise_reverse, List.pairwise_map]
  refine List.Pairwise.imp ?_ (List.pairwise_lt_range months.toNat)
  intro i j hij
  show dateLe (mkBucket (subDays (30 * j) now)).start (mkBucket (subDays (30 * i) now)).start
  rw [mkBucket_start, mkBucket_start]
  exact dateLe_firstOfMonth (ymLe_subDays_mono now (by omega))

/-- The last bucket of a nonempty window is the bucket of `now` itself. -/
theorem monthsList_getLast (now : Date) (months : Int) (h : 1 ≤ months) :
    (monthsList now months).getLast? = some (mkBucket now) := by
  unfold monthsList
  rw [List.getLast?_reverse]
  have hn : months.toNat = (months.toNat - 1) + 1 := by omega
  rw [hn, List.range_succ_eq_map]
  simp only [List.map_cons, List.head?_cons, Nat.mul_zero, Option.some.injEq]
  rfl

/-- Claim C5: for every bucket produced by the month-bucketing step (from any
valid `now`), the bucket starts on the first day of a month and its finish
date is the last calendar day of that same month, as computed by the
first-day-of-next-month-minus-one-day rule with its explicit
December-to-January year rollover. -/
theorem claim_C5 (now : Date) (months : Int) (hv : now.Valid)
    {b : MonthBucket} (hb : b ∈ monthsList now months) :
    b.start.day = 1 ∧
    b.finish = ⟨b.start.year, b.start.month,
      daysInMonth b.start.year b.start.month⟩ := by
  obtain ⟨i, hi, rfl⟩ := mem_monthsList hb
  obtain ⟨h1, h2, h3, h4⟩ := subDays_valid (30 * i) hv
  rw [mkBucket_start, mkBucket_finish]
  exact ⟨rfl, lastOfMonthSrc_firstDay _ _ h1 h2⟩

/-- Claim C5 witness at a concrete December date (year-rollover case). -/
theorem claim_C5_witness :
    (⟨2023, 12, 15⟩ : Date).Valid ∧
    mkBucket ⟨2023, 12, 15⟩ ∈ monthsList ⟨2023, 12, 15⟩ 1 ∧
    ((mkBucket ⟨2023, 12, 15⟩).start.day = 1 ∧
      (mkBucket ⟨2023, 12, 15⟩).finish =
        ⟨(mkBucket ⟨2023, 12, 15⟩).start.year,
          (mkBucket ⟨2023, 12, 15⟩).start.month,
          daysInMonth (mkBucket ⟨2023, 12, 15⟩).start.year
            (mkBucket ⟨2023, 12, 15⟩).start.month⟩) :=
  ⟨by decide, by decide, claim_C5 ⟨2023, 12, 15⟩ 1 (by decide) (by decide)⟩

/-- Claim C10: for the same `now` and month count, the month-key list
recomputed inside `write_csv` equals, element for element, the `key` values
of the buckets computed inside `get_layer_pulls`. -/
theorem claim_C10 (now : Date) (months : Int) :
    writeCsvMonthKeys now months = (monthsList now months).map (·.key) := by
  unfold writeCsvMonthKeys monthsList
  rw [List.map_reverse, List.map_map]
  rfl

/-- Claim C1 counterexample: with `now` = 2024-03-31 and N = 2, the 30-day
decrement stays inside March (March 31 minus 30 days is March 1), so the two
buckets carry the same key and the produced key list has a duplicate. -/
theorem claim_C1_cex :
    ¬ ((monthsList ⟨2024, 3, 31⟩ 2).map MonthBucket.key).Nodup := by decide

/-- Claim C1 (amended): for every valid `now` and every N ≥ 1 the bucketing
step produces exactly N buckets, chronologically non-strictly ascending by
start date, with the last bucket's date range containing `now`; duplicate
keys can occur (see the counterexample), so the no-duplicate clause is
dropped and ascending is non-strict. -/
theorem claim_C1 (now : Date) (months : Int) (hv : now.Valid) (hm : 1 ≤ months) :
    (monthsList now months).length = months.toNat ∧
    List.Sorted dateLe ((monthsList now months).map (·.start)) ∧
    ∃ b, (monthsList now months).getLast? = some b ∧
      dateLe b.start now ∧ dateLe now b.finish := by
  obtain ⟨h1, h2, h3, h4⟩ := hv
  refine ⟨monthsList_length now months, monthsList_sorted now months,
    mkBucket now, monthsList_getLast now months hm, ?_, ?_⟩
  · show dateLe (firstOfMonth now) now
    unfold firstOfMonth dateLe
    dsimp only
    omega
  · rw [mkBucket_finish,
      show firstOfMonth now = ⟨now.year, now.month, 1⟩ from rfl,
      lastOfMonthSrc_firstDay now.year now.month h1 h2]
    unfold dateLe
    dsimp only
    omega

/-- Claim C1 witness at a concrete `now` and N = 2. -/
theorem claim_C1_witness :
    (⟨2024, 5, 15⟩ : Date).Valid ∧ (1 : Int) ≤ 2 ∧
    ((monthsList ⟨2024, 5, 15⟩ 2).length = (2 : Int).toNat ∧
      List.Sorted dateLe ((monthsList ⟨2024, 5, 15⟩ 2).map (·.start)) ∧
      ∃ b, (monthsList ⟨2024, 5, 15⟩ 2).getLast? = some b ∧
        dateLe b.start ⟨2024, 5, 15⟩ ∧ dateLe ⟨2024, 5, 15⟩ b.finish) :=
  ⟨by decide, by decide, claim_C1 ⟨2024, 5, 15⟩ 2 (by decide) (by decide)⟩

/-- Lookup after assignment on an association list. -/
theorem alookup_setEntry {α : Type} (xs : List (String × α)) (k k' : String)
    (v : α) :
    alookup (setEntry xs k v) k' = if k = k' then some v else alookup xs k' := by
  induction xs with
  | nil => simp only [setEntry, alookup]
  | cons p rest ih =>
    obtain ⟨a, b⟩ := p
    by_cases hak : a = k
    · subst hak
      by_cases h : a = k' <;> simp [setEntry, alookup, h]
    · by_cases h : a = k' <;> by_cases hkk : k = k' <;>
        simp_all [setEntry, alookup]

/-- Row lookup distributes over a cons cell of the matrix. -/
theorem getCell_cons (a : String) (row : List (String × Json)) (rest : Matrix)
    (t k : String) :
    getCell ((a, row) :: rest) t k =
      if a = t then alookup row k else getCell rest t k := by
  by_cases h : a = t <;> simp [getCell, alookup, h]

/-- Cell lookup after cell assignment on the pulls matrix. -/
theorem getCell_setCell (m : Matrix) (t k t' k' : String) (v : Json) :
    getCell (setCell m t k v) t' k' =
      if t = t' ∧ k = k' then some v else getCell m t' k' := by
  induction m with
  | nil =>
    by_cases ht : t = t' <;> by_cases hk : k = k' <;>
      simp_all [setCell, getCell, alookup]
  | cons p rest ih =>
    obtain ⟨a, row⟩ := p
    by_cases hat : a = t
    · subst hat
      rw [show setCell ((a, row) :: rest) a k v = (a, setEntry row k v) :: rest
        from by simp [setCell]]
      by_cases ht : a = t'
      · subst ht
        rw [getCell_cons, getCell_cons, if_pos rfl, if_pos rfl, alookup_setEntry]
        by_cases hk : k = k' <;> simp [hk]
      · rw [getCell_cons, getCell_cons, if_neg ht, if_neg ht, if_neg]
        rintro ⟨h1, _⟩
        exact ht h1
    · rw [show setCell ((a, row) :: rest) t k v = (a, row) :: setCell rest t k v
        from by simp [setCell, hat]]
      rw [getCell_cons, getCell_cons]
      by_cases ht : a = t'
      · rw [if_pos ht, if_pos ht, if_neg]
        rintro ⟨h1, _⟩
        exact hat (h1 ▸ ht)
      · rw [if_neg ht, if_neg ht, ih]

/-- A successful lookup comes from an entry of the association list. -/
theorem mem_of_alookup {α : Type} {xs : List (String × α)} {k : String} {v : α}
    (h : alookup xs k = some v) : (k, v) ∈ xs := by
  induction xs with
  | nil => simp [alookup] at h
  | cons p rest ih =>
    obtain ⟨a, b⟩ := p
    by_cases hak : a = k
    · subst hak
      simp only [alookup, if_true] at h
      injection h with h
      subst h
      exact List.mem_cons_self _ _
    · simp only [alookup, if_neg hak] at h
      exact List.mem_cons_of_mem _ (ih h)

/-- Effect on lookups of storing one value per bucket for token `u`. -/
theorem getCell_foldSet (val : MonthBucket → Json) (u : String)
    (buckets : List MonthBucket) :
    ∀ (m : Matrix) (t k : String),
      getCell (buckets.foldl (fun acc b => setCell acc u b.key (val b)) m) t k =
        if t = u then (cellSpecGen val buckets k).or (getCell m t k)
        else getCell m t k := by
  induction buckets with
  | nil =>
    intro m t k
    by_cases h : t = u <;> simp [h, cellSpecGen]
  | cons b rest ih =>
    intro m t k
    simp only [List.foldl_cons]
    rw [ih]
    by_cases ht : t = u
    · subst ht
      simp only [if_pos rfl]
      rw [getCell_setCell]
      unfold cellSpecGen
      rw [List.reverse_cons, List.find?_append]
      cases hf : rest.reverse.find? (fun x => x.key == k) with
      | some c => simp [hf, Option.or]
      | none =>
        by_cases hbk : b.key = k
        · have hb : (b.key == k) = true := beq_iff_eq.mpr hbk
          simp [hf, List.find?, hb, hbk, Option.or]
        · have hb : (b.key == k) = false := beq_eq_false_iff_ne.mpr hbk
          simp [hf, List.find?, hb, hbk, Option.or]
    · simp only [if_neg ht]
      rw [getCell_setCell, if_neg]
      rintro ⟨h1, _⟩
      exact ht h1.symm

/-- A 404 response makes the fetch return zero with a warning log. -/
theorem fetch_404 (t s f : String) (resp : Response) (h : resp.status = 404) :
    (fetch_usage_metrics t s f resp).2 = .ok (.num 0) ∧
      (⟨.warning, "No usage metrics found for entitlement token: " ++ t⟩ :
        LogEntry) ∈ (fetch_usage_metrics t s f resp).1 := by
  unfold fetch_usage_metrics
  rw [if_pos h]
  exact ⟨rfl, by simp⟩

/-- A status in 400-599 other than 404 makes the fetch raise `HTTPError`. -/
theorem fetch_hardFail (t s f : String) (resp : Response)
    (h4 : 400 ≤ resp.status) (h6 : resp.status < 600)
    (hn : resp.status ≠ 404) :
    (fetch_usage_metrics t s f resp).2 = .error (.httpError resp.status) := by
  unfold fetch_usage_metrics raise_for_status
  rw [if_neg hn, if_pos ⟨h4, h6⟩]

/-- Against the counts-valued oracle every fetch succeeds with the count. -/
theorem fetch_oracleOf (cnt : String → String → String → Int) (t s f : String) :
    (fetch_usage_metrics t s f (oracleOf cnt t s f)).2 = .ok (.num (cnt t s f)) := rfl

/-- `fetchFor` against the counts-valued oracle. -/
theorem fetchFor_oracleOf (cnt : String → String → String → Int) (t : String)
    (b : MonthBucket) :
    (fetchFor (oracleOf cnt) t b).2 =
      .ok (.num (cnt t (dateStr b.start) (dateStr b.finish))) := rfl

/-- When every bucket's fetch succeeds, the per-token loop stores exactly one
value per bucket, in iteration order. -/
theorem fetchMonths_ok_fold (oracle : String → String → String → Response)
    (t : String) (val : MonthBucket → Json) :
    ∀ (buckets : List MonthBucket),
      (∀ b ∈ buckets, (fetchFor oracle t b).2 = .ok (val b)) →
      ∀ m, (fetchMonths oracle t buckets m).2 =
        .ok (buckets.foldl (fun acc b => setCell acc t b.key (val b)) m) := by
  intro buckets
  induction buckets with
  | nil => intro _ m; rfl
  | cons b rest ih =>
    intro h m
    have hb := h b (List.mem_cons_self b rest)
    simp only [fetchMonths, hb, List.foldl_cons]
    exact ih (fun x hx => h x (List.mem_cons_of_mem _ hx)) _

/-- When every bucket's fetch succeeds (with any value), the per-token loop
succeeds. -/
theorem fetchMonths_ok_exists (oracle : String → String → String → Response)
    (t : String) :
    ∀ (buckets : List MonthBucket),
      (∀ b ∈ buckets, ∃ v, (fetchFor oracle t b).2 = .ok v) →
      ∀ m, ∃ m', (fetchMonths oracle t buckets m).2 = .ok m' := by
  intro buckets
  induction buckets with
  | nil => intro _ m; exact ⟨m, rfl⟩
  | cons b rest ih =>
    intro h m
    obtain ⟨v, hv⟩ := h b (List.mem_cons_self b rest)
    simp only [fetchMonths, hv]
    exact ih (fun x hx => h x (List.mem_cons_of_mem _ hx)) _

/-- A successful per-token loop leaves every other token's cells unchanged. -/
theorem getCell_fetchMonths_other (oracle : String → String → String → Response)
    (u : String) :
    ∀ (buckets : List MonthBucket) (m m' : Matrix),
      (fetchMonths oracle u buckets m).2 = .ok m' →
      ∀ t k, t ≠ u → getCell m' t k = getCell m t k := by
  intro buckets
  induction buckets with
  | nil =>
    intro m m' h t k ht
    simp only [fetchMonths] at h
    cases h
    rfl
  | cons b rest ih =>
    intro m m' h t k ht
    simp only [fetchMonths] at h
    cases hfr : (fetchFor oracle u b).2 with
    | error e => rw [hfr] at h; simp at h
    | ok v =>
      rw [hfr] at h
      simp only at h
      rw [ih _ _ h t k ht, getCell_setCell, if_neg]
      rintro ⟨h1, _⟩
      exact ht h1.symm

/-- If some bucket's fetch raises, the per-token loop raises. -/
theorem fetchMonths_error_of (oracle : String → String → String → Response)
    (t : String) :
    ∀ (buckets : List MonthBucket),
      (∃ b ∈ buckets, ∃ e0, (fetchFor oracle t b).2 = .error e0) →
      ∀ m, ∃ e, (fetchMonths oracle t buckets m).2 = .error e := by
  intro buckets
  induction buckets with
  | nil => rintro ⟨b, hb, _⟩; exact absurd hb (List.not_mem_nil b)
  | cons b rest ih =>
    rintro ⟨b', hb', e0, he⟩ m
    cases hfr : (fetchFor oracle t b).2 with
    | error e => exact ⟨e, by simp only [fetchMonths, hfr]⟩
    | ok v =>
      rcases List.mem_cons.mp hb' with rfl | hmem
      · rw [hfr] at he; cases he
      · simp only [fetchMonths, hfr]
        exact ih ⟨b', hmem, e0, he⟩ _

/-- Absorbing repeated `Option.or` with the same left operand. -/
theorem option_or_or {α : Type} (a b : Option α) : a.or (a.or b) = a.or b := by
  cases a <;> simp [Option.or]

/-- When every fetch of every listed token succeeds, the aggregation loop
succeeds. -/
theorem process_ok_exists (oracle : String → String → String → Response)
    (buckets : List MonthBucket) :
    ∀ (ents : List Entitlement),
      (∀ e ∈ ents, ∀ b ∈ buckets, ∃ v,
        (fetchFor oracle e.slug_perm b).2 = .ok v) →
      ∀ m, ∃ m', (processEntitlements oracle buckets ents m).2 = .ok m' := by
  intro ents
  induction ents with
  | nil => intro _ m; exact ⟨m, rfl⟩
  | cons e rest ih =>
    intro h m
    obtain ⟨m1, h1⟩ := fetchMonths_ok_exists oracle e.slug_perm buckets
      (h e (List.mem_cons_self e rest)) m
    simp only [processEntitlements, h1]
    exact ih (fun x hx => h x (List.mem_cons_of_mem _ hx)) m1

/-- Characterization of the final matrix at a token all of whose fetches
succeed with a per-bucket value: when the loop result is `ok`, the token's
cells hold the per-bucket values (last write wins) over whatever was there
before, and appear exactly when the token is listed. -/
theorem getCell_process (oracle : String → String → String → Response)
    (buckets : List MonthBucket) (t : String) (val : MonthBucket → Json)
    (hval : ∀ b ∈ buckets, (fetchFor oracle t b).2 = .ok (val b)) :
    ∀ (ents : List Entitlement) (m m' : Matrix),
      (processEntitlements oracle buckets ents m).2 = .ok m' →
      ∀ k, getCell m' t k =
        if t ∈ ents.map Entitlement.slug_perm
        then (cellSpecGen val buckets k).or (getCell m t k)
        else getCell m t k := by
  intro ents
  induction ents with
  | nil =>
    intro m m' h k
    simp only [processEntitlements] at h
    cases h
    simp
  | cons e rest ih =>
    intro m m' h k
    simp only [processEntitlements] at h
    cases hfm : (fetchMonths oracle e.slug_perm buckets m).2 with
    | error err => rw [hfm] at h; simp at h
    | ok m1 =>
      rw [hfm] at h
      simp only at h
      have hih := ih m1 m' h k
      by_cases hslug : e.slug_perm = t
      · subst hslug
        have hfold := fetchMonths_ok_fold oracle e.slug_perm val buckets hval m
        rw [hfm] at hfold
        injection hfold with hfold
        subst hfold
        rw [getCell_foldSet] at hih
        rw [if_pos rfl] at hih
        have hmem : e.slug_perm ∈ (e :: rest).map Entitlement.slug_perm := by
          simp
        rw [if_pos hmem]
        by_cases hr : e.slug_perm ∈ rest.map Entitlement.slug_perm
        · rw [if_pos hr] at hih
          rw [hih, option_or_or]
        · rw [if_neg hr] at hih
          exact hih
      · have hunch := getCell_fetchMonths_other oracle e.slug_perm buckets m m1
          hfm t k (fun hh => hslug hh.symm)
        rw [hunch] at hih
        have hcond : (t ∈ (e :: rest).map Entitlement.slug_perm) ↔
            (t ∈ rest.map Entitlement.slug_perm) := by
          simp only [List.map_cons, List.mem_cons]
          constructor
          · rintro (h1 | h1)
            · exact absurd h1.symm hslug
            · exact h1
          · exact Or.inr
        rw [if_congr hcond rfl rfl]
        exact hih

/-- If some listed token has some bucket whose fetch raises, the aggregation
loop raises. -/
theorem process_error_of (oracle : String → String → String → Response)
    (buckets : List MonthBucket) :
    ∀ (ents : List Entitlement),
      (∃ e ∈ ents, ∃ b ∈ buckets, ∃ e0,
        (fetchFor oracle e.slug_perm b).2 = .error e0) →
      ∀ m, ∃ err, (processEntitlements oracle buckets ents m).2 = .error err := by
  intro ents
  induction ents with
  | nil => rintro ⟨e, he, _⟩; exact absurd he (List.not_mem_nil e)
  | cons e rest ih =>
    rintro ⟨e', he', hbad⟩ m
    cases hfm : (fetchMonths oracle e.slug_perm buckets m).2 with
    | error err => exact ⟨err, by simp only [processEntitlements, hfm]⟩
    | ok m1 =>
      rcases List.mem_cons.mp he' with rfl | hmem
      · obtain ⟨err, herr⟩ := fetchMonths_error_of oracle e'.slug_perm buckets
          ⟨hbad.choose, hbad.choose_spec.1, hbad.choose_spec.2⟩ m
        rw [hfm] at herr
        cases herr
      · simp only [processEntitlements, hfm]
        exact ih ⟨e', hmem, hbad⟩ m1

theorem getCell_nil (t k : String) : getCell [] t k = none := rfl

/-- For nonempty entitlement lists the result of `get_layer_pulls` is the
result of the aggregation loop started from the empty matrix. -/
theorem get_layer_pulls_snd (ents : List Entitlement)
    (oracle : String → String → String → Response) (now : Date) (months : Int)
    (h : ents ≠ []) :
    (get_layer_pulls ents oracle now months).2 =
      (processEntitlements oracle (monthsList now months) ents []).2 := by
  unfold get_layer_pulls
  rw [if_neg]
  simpa using h

/-- With an empty bucket list the aggregation loop is the identity. -/
theorem process_nil_buckets (oracle : String → String → String → Response) :
    ∀ (ents : List Entitlement) (m : Matrix),
      (processEntitlements oracle [] ents m).2 = .ok m := by
  intro ents
  induction ents with
  | nil => intro m; rfl
  | cons e rest ih =>
    intro m
    have h1 : (fetchMonths oracle e.slug_perm [] m).2 = .ok m := rfl
    simp only [processEntitlements, h1]
    exact ih m

/-- When some bucket of the list has key `k`, the per-token stored values
resolve at `k` to the value of some bucket of the list. -/
theorem cellSpecGen_some_of_mem {buckets : List MonthBucket} {k : String}
    (val : MonthBucket → Json) (h : ∃ b ∈ buckets, b.key = k) :
    ∃ b', b' ∈ buckets ∧ cellSpecGen val buckets k = some (val b') := by
  unfold cellSpecGen
  cases hf : buckets.reverse.find? (fun b => b.key == k) with
  | none =>
    rw [List.find?_eq_none] at hf
    obtain ⟨b, hb, hk⟩ := h
    exact absurd (beq_iff_eq.mpr hk) (by simpa using hf b (List.mem_reverse.mpr hb))
  | some b' =>
    exact ⟨b', List.mem_reverse.mp (List.mem_of_find?_eq_some hf), by simp⟩

/-- Claim C4: for a fixed assignment of counts to (token, month-range)
queries, the matrix produced by `get_layer_pulls` is, as a mapping from token
and month key to stored count, invariant under permutation of the entitlement
list. -/
theorem claim_C4 (cnt : String → String → String → Int)
    (ents1 ents2 : List Entitlement) (now : Date) (months : Int)
    (hp : ents1.Perm ents2) (t k : String) :
    ((get_layer_pulls ents1 (oracleOf cnt) now months).2.map
      (fun m => getCell m t k)) =
    ((get_layer_pulls ents2 (oracleOf cnt) now months).2.map
      (fun m => getCell m t k)) := by
  by_cases hne : ents1 = []
  · subst hne
    rw [List.Perm.eq_nil hp.symm]
  · have hne2 : ents2 ≠ [] := fun hh => hne (List.Perm.eq_nil (hh ▸ hp))
    rw [get_layer_pulls_snd ents1 _ now months hne,
      get_layer_pulls_snd ents2 _ now months hne2]
    have hall : ∀ (l : List Entitlement), ∀ e ∈ l, ∀ b ∈ monthsList now months,
        ∃ v, (fetchFor (oracleOf cnt) e.slug_perm b).2 = .ok v :=
      fun l e _ b _ => ⟨_, fetchFor_oracleOf cnt e.slug_perm b⟩
    obtain ⟨m1, h1⟩ := process_ok_exists (oracleOf cnt) (monthsList now months)
      ents1 (hall ents1) []
    obtain ⟨m2, h2⟩ := process_ok_exists (oracleOf cnt) (monthsList now months)
      ents2 (hall ents2) []
    rw [h1, h2]
    simp only [Except.map]
    have hval : ∀ b ∈ monthsList now months,
        (fetchFor (oracleOf cnt) t b).2 =
          .ok ((fun b => Json.num (cnt t (dateStr b.start) (dateStr b.finish))) b) :=
      fun b _ => fetchFor_oracleOf cnt t b
    rw [getCell_process (oracleOf cnt) (monthsList now months) t _ hval ents1 [] m1 h1 k,
      getCell_process (oracleOf cnt) (monthsList now months) t _ hval ents2 [] m2 h2 k]
    have hmem : (t ∈ ents1.map Entitlement.slug_perm) ↔
        (t ∈ ents2.map Entitlement.slug_perm) :=
      (hp.map Entitlement.slug_perm).mem_iff
    rw [if_congr hmem rfl rfl]

/-- Claim C4 witness: swapping two concrete entitlements leaves every lookup
of the resulting matrix unchanged. -/
theorem claim_C4_witness :
    ([⟨"tokA", none⟩, ⟨"tokB", none⟩] : List Entitlement).Perm
      [⟨"tokB", none⟩, ⟨"tokA", none⟩] ∧
    ((get_layer_pulls [⟨"tokA", none⟩, ⟨"tokB", none⟩] (oracleOf fun _ _ _ => 7)
        ⟨2024, 5, 15⟩ 1).2.map (fun m => getCell m "tokA" "2024-05")) =
    ((get_layer_pulls [⟨"tokB", none⟩, ⟨"tokA", none⟩] (oracleOf fun _ _ _ => 7)
        ⟨2024, 5, 15⟩ 1).2.map (fun m => getCell m "tokA" "2024-05")) :=
  ⟨List.Perm.swap (⟨"tokB", none⟩ : Entitlement) ⟨"tokA", none⟩ [],
    claim_C4 (fun _ _ _ => 7) [⟨"tokA", none⟩, ⟨"tokB", none⟩]
      [⟨"tokB", none⟩, ⟨"tokA", none⟩] ⟨2024, 5, 15⟩ 1
      (List.Perm.swap (⟨"tokB", none⟩ : Entitlement) ⟨"tokA", none⟩ [])
      "tokA" "2024-05"⟩

/-- Claim C6 counterexample: non-2xx responses outside 400-599 do not abort
the run — `requests.raise_for_status` raises only for statuses 400-599, so
with status 300 (and likewise with status 600) the body is parsed, the CSV
is produced and the exit code is 0. -/
theorem claim_C6_cex :
    (mainRun [⟨"tokA", none⟩] (fun _ _ _ => ⟨300, .obj []⟩)
      ⟨2024, 5, 15⟩ 1).exitCode = 0 ∧
    (mainRun [⟨"tokA", none⟩] (fun _ _ _ => ⟨300, .obj []⟩)
      ⟨2024, 5, 15⟩ 1).output.isSome = true ∧
    (mainRun [⟨"tokA", none⟩] (fun _ _ _ => ⟨600, .obj []⟩)
      ⟨2024, 5, 15⟩ 1).exitCode = 0 ∧
    (mainRun [⟨"tokA", none⟩] (fun _ _ _ => ⟨600, .obj []⟩)
      ⟨2024, 5, 15⟩ 1).output.isSome = true := ⟨rfl, rfl, rfl, rfl⟩

/-- Claim C6 (amended): a usage-fetch response with a status in 400-599 other
than 404 aborts the entire run — no CSV output is produced, the process
exits with status 1, and an error-level record is logged.  (Statuses outside
400-599, including non-2xx 3xx responses and statuses ≥ 600, are not raised
by `requests.raise_for_status` and do not abort; see the counterexample.) -/
theorem claim_C6 (ents : List Entitlement)
    (oracle : String → String → String → Response) (now : Date) (months : Int)
    (e : Entitlement) (b : MonthBucket) (he : e ∈ ents)
    (hb : b ∈ monthsList now months)
    (h4 : 400 ≤ (oracle e.slug_perm (dateStr b.start) (dateStr b.finish)).status)
    (h6 : (oracle e.slug_perm (dateStr b.start) (dateStr b.finish)).status < 600)
    (hn : (oracle e.slug_perm (dateStr b.start) (dateStr b.finish)).status ≠ 404) :
    (mainRun ents oracle now months).output = none ∧
    (mainRun ents oracle now months).exitCode = 1 ∧
    ∃ msg, (⟨.error, msg⟩ : LogEntry) ∈ (mainRun ents oracle now months).logs := by
  have hfe : ∃ e0, (fetchFor oracle e.slug_perm b).2 = .error e0 :=
    ⟨_, fetch_hardFail e.slug_perm _ _ _ h4 h6 hn⟩
  obtain ⟨err, herr⟩ := process_error_of oracle (monthsList now months) ents
    ⟨e, he, b, hb, hfe⟩ []
  have hne : ents ≠ [] := by
    rintro rfl
    exact absurd he (List.not_mem_nil e)
  have hglp : (get_layer_pulls ents oracle now months).2 = .error err := by
    rw [get_layer_pulls_snd ents oracle now months hne]
    exact herr
  simp only [mainRun, hglp]
  exact ⟨trivial, trivial, _,
    List.mem_append_right _ (List.mem_singleton.mpr rfl)⟩

/-- Claim C6 witness at a concrete 500 response. -/
theorem claim_C6_witness :
    (⟨"tokA", none⟩ : Entitlement) ∈ ([⟨"tokA", none⟩] : List Entitlement) ∧
    mkBucket ⟨2024, 5, 15⟩ ∈ monthsList ⟨2024, 5, 15⟩ 1 ∧
    400 ≤ (500 : Nat) ∧ (500 : Nat) < 600 ∧ (500 : Nat) ≠ 404 ∧
    ((mainRun [⟨"tokA", none⟩] (fun _ _ _ => ⟨500, .null⟩)
        ⟨2024, 5, 15⟩ 1).output = none ∧
      (mainRun [⟨"tokA", none⟩] (fun _ _ _ => ⟨500, .null⟩)
        ⟨2024, 5, 15⟩ 1).exitCode = 1 ∧
      ∃ msg, (⟨.error, msg⟩ : LogEntry) ∈
        (mainRun [⟨"tokA", none⟩] (fun _ _ _ => ⟨500, .null⟩)
          ⟨2024, 5, 15⟩ 1).logs) :=
  ⟨by decide, by decide, by decide, by decide, by decide,
    claim_C6 [⟨"tokA", none⟩] (fun _ _ _ => ⟨500, .null⟩) ⟨2024, 5, 15⟩ 1
      ⟨"tokA", none⟩ (mkBucket ⟨2024, 5, 15⟩) (by decide) (by decide)
      (by decide) (by decide) (by decide)⟩

/-- Claim C8 counterexample: with month count 0 the bucketing step silently
produces the empty bucket list and `get_layer_pulls` completes without any
error, returning the empty matrix — no `InvalidArgument` failure occurs
(the script has no such error path at all). -/
theorem claim_C8_cex :
    monthsList ⟨2024, 5, 15⟩ 0 = [] ∧
    (get_layer_pulls [⟨"tokA", none⟩] (fun _ _ _ => ⟨200, .obj []⟩)
      ⟨2024, 5, 15⟩ 0).2 = .ok [] := ⟨rfl, rfl⟩

/-- Claim C8 (amended): for every month count N ≤ 0 the month-bucketing
operation does not fail: it returns the empty bucket sequence (Python
`range` of a non-positive count is empty) and `get_layer_pulls` completes
successfully with an empty matrix. -/
theorem claim_C8 (now : Date) (months : Int) (hm : months ≤ 0)
    (ents : List Entitlement)
    (oracle : String → String → String → Response) :
    monthsList now months = [] ∧
    (get_layer_pulls ents oracle now months).2 = .ok [] := by
  have hb : monthsList now months = [] := by
    unfold monthsList
    have h0 : months.toNat = 0 := by omega
    rw [h0]
    rfl
  refine ⟨hb, ?_⟩
  by_cases hne : ents = []
  · subst hne
    rfl
  · rw [get_layer_pulls_snd ents oracle now months hne, hb]
    exact process_nil_buckets oracle ents []

/-- Claim C8 witness at month count -2. -/
theorem claim_C8_witness :
    (-2 : Int) ≤ 0 ∧
    (monthsList ⟨2024, 5, 15⟩ (-2) = [] ∧
      (get_layer_pulls [⟨"tokB", none⟩] (fun _ _ _ => ⟨200, .obj []⟩)
        ⟨2024, 5, 15⟩ (-2)).2 = .ok []) :=
  ⟨by decide,
    claim_C8 ⟨2024, 5, 15⟩ (-2) (by decide) [⟨"tokB", none⟩]
      (fun _ _ _ => ⟨200, .obj []⟩)⟩

/-- Claim C2: an HTTP 404 response makes `fetch_usage_metrics` return a zero
contribution with a warning-level log record rather than raising; a run whose
listed tokens all answer 404 completes successfully; and in any successful
run, a token all of whose responses are 404 has every month cell of its row
equal to zero. -/
theorem claim_C2 (ents : List Entitlement)
    (oracle : String → String → String → Response) (now : Date) (months : Int)
    (t : String) (h404 : ∀ s f, (oracle t s f).status = 404) :
    (∀ s f (resp : Response), resp.status = 404 →
      (fetch_usage_metrics t s f resp).2 = .ok (.num 0) ∧
        (⟨.warning, "No usage metrics found for entitlement token: " ++ t⟩ :
          LogEntry) ∈ (fetch_usage_metrics t s f resp).1) ∧
    ((∀ e ∈ ents, e.slug_perm = t) →
      ∃ m, (get_layer_pulls ents oracle now months).2 = .ok m) ∧
    (∀ m, (get_layer_pulls ents oracle now months).2 = .ok m →
      t ∈ ents.map Entitlement.slug_perm →
      ∀ b ∈ monthsList now months, getCell m t b.key = some (.num 0)) := by
  refine ⟨fun s f resp h => fetch_404 t s f resp h, ?_, ?_⟩
  · intro hall
    by_cases hne : ents = []
    · subst hne
      exact ⟨[], rfl⟩
    · rw [get_layer_pulls_snd ents oracle now months hne]
      refine process_ok_exists oracle (monthsList now months) ents ?_ []
      intro e he b _
      rw [hall e he]
      exact ⟨.num 0, (fetch_404 t _ _ _ (h404 _ _)).1⟩
  · intro m hm hmem b hb
    have hne : ents ≠ [] := by
      rintro rfl
      simp at hmem
    rw [get_layer_pulls_snd ents oracle now months hne] at hm
    have hval : ∀ b' ∈ monthsList now months,
        (fetchFor oracle t b').2 = .ok ((fun _ => Json.num 0) b') :=
      fun b' _ => (fetch_404 t _ _ _ (h404 _ _)).1
    have hchar := getCell_process oracle (monthsList now months) t _ hval
      ents [] m hm b.key
    rw [if_pos hmem] at hchar
    obtain ⟨b', _, hspec⟩ := cellSpecGen_some_of_mem (fun _ => Json.num 0)
      ⟨b, hb, rfl⟩
    rw [hchar, hspec, getCell_nil]
    rfl

/-- Claim C2 witness: one token answering 404 for a one-month window. -/
theorem claim_C2_witness :
    (∀ s f : String, ((fun (_ _ _ : String) => Response.mk 404 Json.null) "tokZ" s f).status = 404) ∧
    ((∀ s f (resp : Response), resp.status = 404 →
      (fetch_usage_metrics "tokZ" s f resp).2 = .ok (.num 0) ∧
        (⟨.warning, "No usage metrics found for entitlement token: " ++ "tokZ"⟩ :
          LogEntry) ∈ (fetch_usage_metrics "tokZ" s f resp).1) ∧
    ((∀ e ∈ ([⟨"tokZ", none⟩] : List Entitlement), e.slug_perm = "tokZ") →
      ∃ m, (get_layer_pulls [⟨"tokZ", none⟩] (fun _ _ _ => ⟨404, .null⟩)
        ⟨2024, 5, 15⟩ 1).2 = .ok m) ∧
    (∀ m, (get_layer_pulls [⟨"tokZ", none⟩] (fun _ _ _ => ⟨404, .null⟩)
        ⟨2024, 5, 15⟩ 1).2 = .ok m →
      "tokZ" ∈ ([⟨"tokZ", none⟩] : List Entitlement).map Entitlement.slug_perm →
      ∀ b ∈ monthsList ⟨2024, 5, 15⟩ 1,
        getCell m "tokZ" b.key = some (.num 0))) :=
  ⟨fun _ _ => rfl,
    claim_C2 [⟨"tokZ", none⟩] (fun _ _ _ => ⟨404, .null⟩) ⟨2024, 5, 15⟩ 1
      "tokZ" (fun _ _ => rfl)⟩

/-- Claim C9: for a 2xx response, whenever one of the nested keys `tokens`,
`downloads`, `total`, `value` is absent at its level of the response body,
the extraction does not raise — `fetch_usage_metrics` returns 0. -/
theorem claim_C9 (t s f : String) (resp : Response)
    (h2 : 200 ≤ resp.status ∧ resp.status < 300)
    (hmiss :
      (∃ fs, resp.body = .obj fs ∧ alookup fs "tokens" = none) ∨
      (∃ fs fs2, resp.body = .obj fs ∧
        alookup fs "tokens" = some (.obj fs2) ∧
        alookup fs2 "downloads" = none) ∨
      (∃ fs fs2 fs3, resp.body = .obj fs ∧
        alookup fs "tokens" = some (.obj fs2) ∧
        alookup fs2 "downloads" = some (.obj fs3) ∧
        alookup fs3 "total" = none) ∨
      (∃ fs fs2 fs3 fs4, resp.body = .obj fs ∧
        alookup fs "tokens" = some (.obj fs2) ∧
        alookup fs2 "downloads" = some (.obj fs3) ∧
        alookup fs3 "total" = some (.obj fs4) ∧
        alookup fs4 "value" = none)) :
    (fetch_usage_metrics t s f resp).2 = .ok (.num 0) := by
  obtain ⟨h200, h300⟩ := h2
  have hn4 : ¬ resp.status = 404 := by omega
  have hn400 : ¬ (400 ≤ resp.status ∧ resp.status < 600) := by omega
  have hext : extractTotal resp.body = .ok (.num 0) := by
    rcases hmiss with ⟨fs, hb, hl⟩ | ⟨fs, fs2, hb, hl1, hl2⟩ |
      ⟨fs, fs2, fs3, hb, hl1, hl2, hl3⟩ |
      ⟨fs, fs2, fs3, fs4, hb, hl1, hl2, hl3, hl4⟩ <;>
      simp [extractTotal, jget, alookup, *]
  unfold fetch_usage_metrics raise_for_status
  rw [if_neg hn4, if_neg hn400]
  simp only [hext]

/-- Claim C9 witness: a 200 response with an empty object body. -/
theorem claim_C9_witness :
    (200 ≤ (Response.mk 200 (Json.obj [])).status ∧
      (Response.mk 200 (Json.obj [])).status < 300) ∧
    (∃ fs, (Response.mk 200 (Json.obj [])).body = Json.obj fs ∧
      alookup fs "tokens" = none) ∧
    (fetch_usage_metrics "tokQ" "2024-01-01" "2024-01-31"
      (Response.mk 200 (Json.obj []))).2 = .ok (.num 0) :=
  ⟨⟨by decide, by decide⟩, ⟨[], rfl, rfl⟩,
    claim_C9 "tokQ" "2024-01-01" "2024-01-31" (Response.mk 200 (Json.obj []))
      ⟨by decide, by decide⟩ (Or.inl ⟨[], rfl, rfl⟩)⟩

theorem rowAllNum_setEntry {row : List (String × Json)} (h : rowAllNum row)
    {v : Json} (hv : ∃ n : Int, v = Json.num n) (k : String) :
    rowAllNum (setEntry row k v) := by
  induction row with
  | nil =>
    intro q hq
    rcases List.mem_singleton.mp hq with rfl
    exact hv
  | cons p rest ih =>
    obtain ⟨a, b⟩ := p
    intro q hq
    by_cases hak : a = k
    · subst hak
      rw [show setEntry ((a, b) :: rest) a v = (a, v) :: rest from by
        simp [setEntry]] at hq
      rcases List.mem_cons.mp hq with rfl | hq2
      · exact hv
      · exact h q (List.mem_cons_of_mem _ hq2)
    · rw [show setEntry ((a, b) :: rest) k v = (a, b) :: setEntry rest k v from by
        simp [setEntry, hak]] at hq
      rcases List.mem_cons.mp hq with rfl | hq2
      · exact h _ (List.mem_cons_self _ _)
      · exact ih (fun q' hq' => h q' (List.mem_cons_of_mem _ hq')) q hq2

theorem matrixAllNum_setCell {m : Matrix} (h : matrixAllNum m) {v : Json}
    (hv : ∃ n : Int, v = Json.num n) (t k : String) :
    matrixAllNum (setCell m t k v) := by
  induction m with
  | nil =>
    intro p hp
    rcases List.mem_singleton.mp hp with rfl
    intro q hq
    rcases List.mem_singleton.mp hq with rfl
    exact hv
  | cons p0 rest ih =>
    obtain ⟨a, row⟩ := p0
    intro p hp
    by_cases hat : a = t
    · subst hat
      rw [show setCell ((a, row) :: rest) a k v = (a, setEntry row k v) :: rest
        from by simp [setCell]] at hp
      rcases List.mem_cons.mp hp with rfl | hp2
      · exact rowAllNum_setEntry (h _ (List.mem_cons_self _ _)) hv k
      · exact h p (List.mem_cons_of_mem _ hp2)
    · rw [show setCell ((a, row) :: rest) t k v = (a, row) :: setCell rest t k v
        from by simp [setCell, hat]] at hp
      rcases List.mem_cons.mp hp with rfl | hp2
      · exact h _ (List.mem_cons_self _ _)
      · exact ih (fun p' hp' => h p' (List.mem_cons_of_mem _ hp')) p hp2

theorem fetchMonths_allNum (oracle : String → String → String → Response)
    (u : String) :
    ∀ (buckets : List MonthBucket) (m m' : Matrix),
      (∀ b ∈ buckets, ∀ v, (fetchFor oracle u b).2 = .ok v →
        ∃ n : Int, v = Json.num n) →
      matrixAllNum m → (fetchMonths oracle u buckets m).2 = .ok m' →
      matrixAllNum m' := by
  intro buckets
  induction buckets with
  | nil =>
    intro m m' _ hm h
    simp only [fetchMonths] at h
    cases h
    exact hm
  | cons b rest ih =>
    intro m m' hv hm h
    simp only [fetchMonths] at h
    cases hfr : (fetchFor oracle u b).2 with
    | error e => rw [hfr] at h; simp at h
    | ok v =>
      rw [hfr] at h
      simp only at h
      exact ih _ _ (fun b' hb' => hv b' (List.mem_cons_of_mem _ hb'))
        (matrixAllNum_setCell hm (hv b (List.mem_cons_self b rest) v hfr) u b.key)
        h

theorem process_allNum (oracle : String → String → String → Response)
    (buckets : List MonthBucket) :
    ∀ (ents : List Entitlement) (m m' : Matrix),
      (∀ e ∈ ents, ∀ b ∈ buckets, ∀ v,
        (fetchFor oracle e.slug_perm b).2 = .ok v → ∃ n : Int, v = Json.num n) →
      matrixAllNum m →
      (processEntitlements oracle buckets ents m).2 = .ok m' →
      matrixAllNum m' := by
  intro ents
  induction ents with
  | nil =>
    intro m m' _ hm h
    simp only [processEntitlements] at h
    cases h
    exact hm
  | cons e rest ih =>
    intro m m' hv hm h
    simp only [processEntitlements] at h
    cases hfm : (fetchMonths oracle e.slug_perm buckets m).2 with
    | error err => rw [hfm] at h; simp at h
    | ok m1 =>
      rw [hfm] at h
      simp only at h
      exact ih _ _ (fun e' he' => hv e' (List.mem_cons_of_mem _ he'))
        (fetchMonths_allNum oracle e.slug_perm buckets m m1
          (hv e (List.mem_cons_self e rest)) hm hfm)
        h

/-- Claim C3: in a run against the counts-valued API, every listed
entitlement token gets a row of the matrix and of the rendered CSV, and every
rendered data cell is an integer count (0 when nothing was stored). -/
theorem claim_C3 (cnt : String → String → String → Int)
    (ents : List Entitlement) (now : Date) (months : Int) (e : Entitlement)
    (hm : 1 ≤ months) (he : e ∈ ents) :
    ∃ m, (get_layer_pulls ents (oracleOf cnt) now months).2 = .ok m ∧
      (∃ row, alookup m e.slug_perm = some row) ∧
      (∃ csvRow, csvRow ∈ (write_csv m months now).tail ∧
        csvRow.head? = some (.str e.slug_perm)) ∧
      (∀ csvRow ∈ (write_csv m months now).tail, ∀ c ∈ csvRow.tail,
        ∃ n : Int, c = Json.num n) := by
  have hne : ents ≠ [] := by
    rintro rfl
    exact absurd he (List.not_mem_nil e)
  obtain ⟨m, hok⟩ := process_ok_exists (oracleOf cnt) (monthsList now months)
    ents (fun e' _ b _ => ⟨_, fetchFor_oracleOf cnt e'.slug_perm b⟩) []
  have hglp : (get_layer_pulls ents (oracleOf cnt) now months).2 = .ok m := by
    rw [get_layer_pulls_snd ents _ now months hne]
    exact hok
  have hbne : ∃ b0, b0 ∈ monthsList now months := by
    apply List.exists_mem_of_length_pos
    rw [monthsList_length]
    omega
  obtain ⟨b0, hb0⟩ := hbne
  have hval : ∀ b ∈ monthsList now months,
      (fetchFor (oracleOf cnt) e.slug_perm b).2 =
        .ok ((fun b => Json.num
          (cnt e.slug_perm (dateStr b.start) (dateStr b.finish))) b) :=
    fun b _ => fetchFor_oracleOf cnt e.slug_perm b
  have hchar := getCell_process (oracleOf cnt) (monthsList now months)
    e.slug_perm _ hval ents [] m hok b0.key
  have hmem : e.slug_perm ∈ ents.map Entitlement.slug_perm :=
    List.mem_map_of_mem Entitlement.slug_perm he
  rw [if_pos hmem] at hchar
  obtain ⟨b', _, hspec⟩ := cellSpecGen_some_of_mem
    (fun b => Json.num (cnt e.slug_perm (dateStr b.start) (dateStr b.finish)))
    ⟨b0, hb0, rfl⟩
  rw [hspec, getCell_nil] at hchar
  have hsome : getCell m e.slug_perm b0.key =
      some (Json.num (cnt e.slug_perm (dateStr b'.start) (dateStr b'.finish))) := by
    rw [hchar]
    rfl
  have hrow : ∃ row, alookup m e.slug_perm = some row := by
    unfold getCell at hsome
    cases halo : alookup m e.slug_perm with
    | none => rw [halo] at hsome; simp at hsome
    | some row => exact ⟨row, rfl⟩
  obtain ⟨row, hrowEq⟩ := hrow
  have hnum : matrixAllNum m := by
    refine process_allNum (oracleOf cnt) (monthsList now months) ents [] m
      ?_ ?_ hok
    · intro e' _ b _ v hv
      rw [fetchFor_oracleOf cnt e'.slug_perm b] at hv
      injection hv with hv
      exact ⟨_, hv.symm⟩
    · intro p hp
      exact absurd hp (List.not_mem_nil p)
  refine ⟨m, hglp, ⟨row, hrowEq⟩, ?_, ?_⟩
  · refine ⟨Json.str e.slug_perm :: (writeCsvMonthKeys now months).map
      (fun k => (alookup row k).getD (Json.num 0)), ?_, rfl⟩
    simp only [write_csv, List.tail_cons]
    exact List.mem_map.mpr ⟨(e.slug_perm, row), mem_of_alookup hrowEq, rfl⟩
  · intro csvRow hrowMem c hc
    simp only [write_csv, List.tail_cons] at hrowMem
    obtain ⟨p, hp, rfl⟩ := List.mem_map.mp hrowMem
    simp only [List.tail_cons] at hc
    obtain ⟨k, _, rfl⟩ := List.mem_map.mp hc
    cases halo : alookup p.2 k with
    | none => exact ⟨0, rfl⟩
    | some v =>
      obtain ⟨n, hn⟩ := hnum p hp (k, v) (mem_of_alookup halo)
      exact ⟨n, hn⟩

/-- Claim C3 witness: one entitlement, one month, constant count 5. -/
theorem claim_C3_witness :
    (1 : Int) ≤ 1 ∧
    (⟨"tokC", none⟩ : Entitlement) ∈ ([⟨"tokC", none⟩] : List Entitlement) ∧
    (∃ m, (get_layer_pulls [⟨"tokC", none⟩] (oracleOf fun _ _ _ => 5)
        ⟨2024, 5, 15⟩ 1).2 = .ok m ∧
      (∃ row, alookup m (⟨"tokC", none⟩ : Entitlement).slug_perm = some row) ∧
      (∃ csvRow, csvRow ∈ (write_csv m 1 ⟨2024, 5, 15⟩).tail ∧
        csvRow.head? = some (.str (⟨"tokC", none⟩ : Entitlement).slug_perm)) ∧
      (∀ csvRow ∈ (write_csv m 1 ⟨2024, 5, 15⟩).tail, ∀ c ∈ csvRow.tail,
        ∃ n : Int, c = Json.num n)) :=
  ⟨by decide, by decide,
    claim_C3 (fun _ _ _ => 5) [⟨"tokC", none⟩] ⟨2024, 5, 15⟩ 1 ⟨"tokC", none⟩
      (by decide) (by decide)⟩

theorem writeCsvMonthKeys_eq (now : Date) (months : Int) :
    writeCsvMonthKeys now months =
      (csvYmList now months).map (fun p => monthKeyStr p.1 p.2) := by
  unfold writeCsvMonthKeys csvYmList
  rw [List.map_reverse, List.map_map]
  rfl

theorem csvYmList_sorted (now : Date) (months : Int) :
    List.Sorted ymPairLe (csvYmList now months) := by
  unfold csvYmList List.Sorted
  rw [List.pairwise_reverse, List.pairwise_map]
  refine List.Pairwise.imp ?_ (List.pairwise_lt_range months.toNat)
  intro i j hij
  exact ymLe_subDays_mono now (by omega)

theorem writeCsvMonthKeys_length (now : Date) (months : Int) :
    (writeCsvMonthKeys now months).length = months.toNat := by
  unfold writeCsvMonthKeys
  rw [List.length_reverse, List.length_map, List.length_range]

/-- Claim C7: the CSV has a header of the token-column label followed by the
month keys in (non-strictly) ascending chronological order, one data row per
matrix row, every row of constant width 1 + N, and 0 rendered in any cell
whose (token, month) pair is absent from the matrix. -/
theorem claim_C7 (pd : Matrix) (months : Int) (now : Date) (hm : 1 ≤ months) :
    (write_csv pd months now).head? =
      some (Json.str "Entitlement Token" ::
        (writeCsvMonthKeys now months).map Json.str) ∧
    (writeCsvMonthKeys now months).length = months.toNat ∧
    (∃ yms : List (Int × Nat),
      writeCsvMonthKeys now months = yms.map (fun p => monthKeyStr p.1 p.2) ∧
      List.Sorted ymPairLe yms) ∧
    (write_csv pd months now).tail.length = pd.length ∧
    (∀ csvRow ∈ write_csv pd months now,
      csvRow.length = 1 + months.toNat) ∧
    (∀ p ∈ pd,
      (Json.str p.1 :: (writeCsvMonthKeys now months).map
        (fun k => (alookup p.2 k).getD (Json.num 0))) ∈
        (write_csv pd months now).tail ∧
      ∀ k, alookup p.2 k = none →
        (alookup p.2 k).getD (Json.num 0) = Json.num 0) := by
  refine ⟨rfl, writeCsvMonthKeys_length now months,
    ⟨csvYmList now months, writeCsvMonthKeys_eq now months,
      csvYmList_sorted now months⟩, ?_, ?_, ?_⟩
  · simp only [write_csv, List.tail_cons, List.length_map]
  · intro csvRow hrow
    simp only [write_csv] at hrow
    rcases List.mem_cons.mp hrow with rfl | hrow2
    · simp [writeCsvMonthKeys_length, Nat.add_comm]
    · obtain ⟨p, _, rfl⟩ := List.mem_map.mp hrow2
      simp [writeCsvMonthKeys_length, Nat.add_comm]
  · intro p hp
    constructor
    · simp only [write_csv, List.tail_cons]
      exact List.mem_map.mpr ⟨p, hp, rfl⟩
    · intro k hk
      rw [hk]
      rfl

/-- Claim C7 witness: one matrix row, one month. -/
theorem claim_C7_witness :
    (1 : Int) ≤ 1 ∧
    ((write_csv [("tokX", [])] 1 ⟨2024, 5, 15⟩).head? =
      some (Json.str "Entitlement Token" ::
        (writeCsvMonthKeys ⟨2024, 5, 15⟩ 1).map Json.str) ∧
    (writeCsvMonthKeys ⟨2024, 5, 15⟩ 1).length = (1 : Int).toNat ∧
    (∃ yms : List (Int × Nat),
      writeCsvMonthKeys ⟨2024, 5, 15⟩ 1 =
        yms.map (fun p => monthKeyStr p.1 p.2) ∧
      List.Sorted ymPairLe yms) ∧
    (write_csv [("tokX", [])] 1 ⟨2024, 5, 15⟩).tail.length =
      ([("tokX", [])] : Matrix).length ∧
    (∀ csvRow ∈ write_csv [("tokX", [])] 1 ⟨2024, 5, 15⟩,
      csvRow.length = 1 + (1 : Int).toNat) ∧
    (∀ p ∈ ([("tokX", [])] : Matrix),
      (Json.str p.1 :: (writeCsvMonthKeys ⟨2024, 5, 15⟩ 1).map
        (fun k => (alookup p.2 k).getD (Json.num 0))) ∈
        (write_csv [("tokX", [])] 1 ⟨2024, 5, 15⟩).tail ∧
      ∀ k, alookup p.2 k = none →
        (alookup p.2 k).getD (Json.num 0) = Json.num 0)) :=
  ⟨by decide, claim_C7 [("tokX", [])] 1 ⟨2024, 5, 15⟩ (by decide)⟩

end CSM
